import Mathlib

/-!
Verification of the HealthCoach chat client (src/static/js/chat.js).

This file gives a shallow embedding, over lists of characters, of the parts
of the `ChatInterface` class that the specification talks about: the
server-sent-event stream decode loop in `handleSubmit`, the transcript store
(`this.messages`) with its identity-switch resets (`logout`, `setUsername`),
the pagination guard (`loadMessages` / `handleScroll`), the voice pipeline
(`processVoiceInput`, `toggleVoiceInput`, `playAudioResponse`,
`stopSpeaking`), the RFC2047 header decoder (`decodeMimeHeader`) and the
render-time formatter (`formatMessage`).

JS strings are modelled as `List Char`; JS `undefined` as `Option`.
Recursions that are not structural in the source are driven by an explicit
fuel argument that is always large enough (fuel `length + 1` where every
step consumes at least one character).
-/

namespace Chat

/-! ## JS string primitives -/

/-- JS `String.prototype.split('\n')`: trailing separators produce trailing
empty fragments, and splitting the empty string gives one empty fragment. -/
def splitLines : List Char → List (List Char)
  | [] => [[]]
  | c :: rest =>
    if c = '\n' then [] :: splitLines rest
    else
      match splitLines rest with
      | [] => [[c]]
      | l :: ls => (c :: l) :: ls

/-- JS whitespace characters recognised by `String.prototype.trim` (ASCII part). -/
def jsWsChar (c : Char) : Bool :=
  c == ' ' || c == '\t' || c == '\n' || c == '\r' || c == '\x0b' || c == '\x0c'

/-- JS `String.prototype.trim` (ASCII whitespace model). -/
def trimJs (l : List Char) : List Char :=
  ((l.dropWhile jsWsChar).reverse.dropWhile jsWsChar).reverse

/-! ## A JSON value model and a fueled parser for `JSON.parse`

The stream loop calls `JSON.parse(line.slice(6))` on each `data: ` line and
skips the line when parsing throws.  JSON numbers are kept as their raw
character text (no floating point is needed by any claim). -/

inductive Jval where
  | jnull
  | jbool (b : Bool)
  | jnum (raw : List Char)
  | jstr (s : List Char)
  | jarr (elems : List Jval)
  | jobj (fields : List (List Char × Jval))

/-- JSON insignificant whitespace. -/
def jsonWs (c : Char) : Bool :=
  c == ' ' || c == '\t' || c == '\n' || c == '\r'

def skipWs (l : List Char) : List Char := l.dropWhile jsonWs

/-- Value of a hex digit (`0`-`9`, `A`-`F`, `a`-`f`), by code point. -/
def hexDigit (c : Char) : Option Nat :=
  let n := c.toNat
  if 48 ≤ n ∧ n ≤ 57 then some (n - 48)
  else if 65 ≤ n ∧ n ≤ 70 then some (n - 55)
  else if 97 ≤ n ∧ n ≤ 102 then some (n - 87)
  else none

/-- Body of a JSON string after the opening quote; returns the decoded
characters and the rest of the input after the closing quote.  Raw control
characters are rejected, as `JSON.parse` rejects them. -/
def parseStringBody : Nat → List Char → Option (List Char × List Char)
  | 0, _ => none
  | _, [] => none
  | fuel + 1, c :: rest =>
    if c = '"' then some ([], rest)
    else if c = '\\' then
      match rest with
      | [] => none
      | e :: rest2 =>
        if e = '"' ∨ e = '\\' ∨ e = '/' then
          (parseStringBody fuel rest2).map (fun p => (e :: p.1, p.2))
        else if e = 'b' then
          (parseStringBody fuel rest2).map (fun p => ('\x08' :: p.1, p.2))
        else if e = 'f' then
          (parseStringBody fuel rest2).map (fun p => ('\x0c' :: p.1, p.2))
        else if e = 'n' then
          (parseStringBody fuel rest2).map (fun p => ('\n' :: p.1, p.2))
        else if e = 'r' then
          (parseStringBody fuel rest2).map (fun p => ('\r' :: p.1, p.2))
        else if e = 't' then
          (parseStringBody fuel rest2).map (fun p => ('\t' :: p.1, p.2))
        else if e = 'u' then
          match rest2 with
          | h1 :: h2 :: h3 :: h4 :: rest3 =>
            match hexDigit h1, hexDigit h2, hexDigit h3, hexDigit h4 with
            | some a, some b, some c3, some d =>
              (parseStringBody fuel rest3).map
                (fun p => (Char.ofNat (((a * 16 + b) * 16 + c3) * 16 + d) :: p.1, p.2))
            | _, _, _, _ => none
          | _ => none
        else none
    else if c.toNat < 32 then none
    else (parseStringBody fuel rest).map (fun p => (c :: p.1, p.2))

/-- Fractional part of a JSON number. -/
def parseFrac : List Char → Option (List Char × List Char)
  | '.' :: t =>
    let ds := t.takeWhile Char.isDigit
    if ds.isEmpty then none else some ('.' :: ds, t.dropWhile Char.isDigit)
  | l => some ([], l)

/-- Exponent part of a JSON number. -/
def parseExp : List Char → Option (List Char × List Char)
  | [] => some ([], [])
  | c :: t =>
    if c = 'e' ∨ c = 'E' then
      let sgn := match t with
        | s :: _ => if s = '+' ∨ s = '-' then [s] else []
        | [] => []
      let t1 := t.drop sgn.length
      let ds := t1.takeWhile Char.isDigit
      if ds.isEmpty then none
      else some (c :: (sgn ++ ds), t1.dropWhile Char.isDigit)
    else some ([], c :: t)

/-- A JSON number, returned as its raw text. -/
def parseNumber (l : List Char) : Option (List Char × List Char) :=
  let sign : List Char := match l with
    | '-' :: _ => ['-']
    | _ => []
  let l1 := l.drop sign.length
  let intPart := l1.takeWhile Char.isDigit
  if intPart.isEmpty then none
  else if 1 < intPart.length ∧ intPart.head? = some '0' then none
  else
    match parseFrac (l1.dropWhile Char.isDigit) with
    | none => none
    | some (frac, r2) =>
      match parseExp r2 with
      | none => none
      | some (ex, r3) => some (sign ++ intPart ++ frac ++ ex, r3)

mutual

/-- A JSON value (the fuel only bounds recursion depth; it is always chosen
large enough at the entry point `parseJson`). -/
def parseValue : Nat → List Char → Option (Jval × List Char)
  | 0, _ => none
  | fuel + 1, input =>
    match skipWs input with
    | [] => none
    | c :: rest =>
      if c = '"' then
        (parseStringBody (rest.length + 1) rest).map (fun p => (Jval.jstr p.1, p.2))
      else if c = Char.ofNat 123 then parseObjBody fuel rest
      else if c = '[' then parseArrBody fuel rest
      else if c = 't' then
        match rest with
        | 'r' :: 'u' :: 'e' :: r => some (Jval.jbool true, r)
        | _ => none
      else if c = 'f' then
        match rest with
        | 'a' :: 'l' :: 's' :: 'e' :: r => some (Jval.jbool false, r)
        | _ => none
      else if c = 'n' then
        match rest with
        | 'u' :: 'l' :: 'l' :: r => some (Jval.jnull, r)
        | _ => none
      else (parseNumber (c :: rest)).map (fun p => (Jval.jnum p.1, p.2))

/-- Object body after the opening brace. -/
def parseObjBody : Nat → List Char → Option (Jval × List Char)
  | 0, _ => none
  | fuel + 1, input =>
    match skipWs input with
    | [] => none
    | c :: rest =>
      if c = Char.ofNat 125 then some (Jval.jobj [], rest)
      else parseMembers fuel (c :: rest)

/-- One or more `"key": value` members, up to and including the closing brace. -/
def parseMembers : Nat → List Char → Option (Jval × List Char)
  | 0, _ => none
  | fuel + 1, input =>
    match skipWs input with
    | '"' :: rest =>
      match parseStringBody (rest.length + 1) rest with
      | none => none
      | some (key, r1) =>
        match skipWs r1 with
        | ':' :: r2 =>
          match parseValue fuel r2 with
          | none => none
          | some (v, r3) =>
            match skipWs r3 with
            | ',' :: r4 =>
              match parseMembers fuel r4 with
              | some (Jval.jobj fields, r5) => some (Jval.jobj ((key, v) :: fields), r5)
              | _ => none
            | c :: r4 =>
              if c = Char.ofNat 125 then some (Jval.jobj [(key, v)], r4) else none
            | [] => none
        | _ => none
    | _ => none

/-- Array body after the opening bracket. -/
def parseArrBody : Nat → List Char → Option (Jval × List Char)
  | 0, _ => none
  | fuel + 1, input =>
    match skipWs input with
    | [] => none
    | c :: rest =>
      if c = ']' then some (Jval.jarr [], rest)
      else parseElems fuel (c :: rest)

/-- One or more array elements, up to and including the closing bracket. -/
def parseElems : Nat → List Char → Option (Jval × List Char)
  | 0, _ => none
  | fuel + 1, input =>
    match parseValue fuel input with
    | none => none
    | some (v, r) =>
      match skipWs r with
      | ',' :: r2 =>
        match parseElems fuel r2 with
        | some (Jval.jarr vs, r3) => some (Jval.jarr (v :: vs), r3)
        | _ => none
      | ']' :: r2 => some (Jval.jarr [v], r2)
      | _ => none

end

/-- `JSON.parse`: a whole-input JSON value (trailing whitespace allowed). -/
def parseJson (l : List Char) : Option Jval :=
  match parseValue (2 * l.length + 8) l with
  | some (v, rest) => if (skipWs rest).isEmpty then some v else none
  | none => none

/-- Property access `obj.key` on a parsed JSON value: `undefined` (`none`)
unless the value is an object with that key; with duplicate keys
`JSON.parse` keeps the last one. -/
def lookupField (v : Jval) (key : List Char) : Option Jval :=
  match v with
  | Jval.jobj fields => ((fields.filter (fun p => p.1 == key)).getLast?).map (fun p => p.2)
  | _ => none

mutual

/-- JS string coercion of a parsed JSON value (as in `fullContent += data.content`). -/
def jsToStringV : Jval → List Char
  | Jval.jnull => "null".data
  | Jval.jbool true => "true".data
  | Jval.jbool false => "false".data
  | Jval.jnum raw => raw
  | Jval.jstr s => s
  | Jval.jarr vs => jsArrJoin vs
  | Jval.jobj _ => "[object Object]".data

/-- JS `Array.prototype.toString`: elements joined with commas. -/
def jsArrJoin : List Jval → List Char
  | [] => []
  | [v] => jsToStringV v
  | v :: vs => jsToStringV v ++ ',' :: jsArrJoin vs

end

/-- JS string coercion where `none` is `undefined`. -/
def jsToString : Option Jval → List Char
  | none => "undefined".data
  | some v => jsToStringV v

/-- JS truthiness of a possibly-`undefined` value. -/
def jsTruthy : Option Jval → Bool
  | none => false
  | some Jval.jnull => false
  | some (Jval.jbool b) => b
  | some (Jval.jstr s) => !s.isEmpty
  | some (Jval.jnum raw) =>
    -- a JSON number is falsy exactly when its mantissa digits are all zero
    !((raw.takeWhile (fun c => c != 'e' && c != 'E')).all
        (fun c => c == '0' || c == '.' || c == '-' || c == '+'))
  | some (Jval.jarr _) => true
  | some (Jval.jobj _) => true

/-! ## The stream decode loop of `handleSubmit` (chat.js lines 509-545)

The reader loop decodes each network chunk to text, splits **only that
chunk** on newlines, and for each line starting with `data: ` runs

    try { const data = JSON.parse(line.slice(6)); ...dispatch... }
    catch (parseError) { /- Skip invalid JSON -/ }

The dispatch appends `data.content` for `chunk`, stores the whole payload
for `done`, and for `error` executes `throw new Error(data.message)` —
which is caught by that same inner `catch` and therefore silently skipped.
`fullContent` and `messageData` are the loop's two local accumulators. -/

structure StreamState where
  fullContent : List Char
  messageData : Option Jval

/-- One `data: ` line of the loop body; lines not starting with `data: `
(including the blank separators) are ignored. -/
def processLine (st : StreamState) (line : List Char) : StreamState :=
  if "data: ".data.isPrefixOf line then
    match parseJson (line.drop 6) with
    | none => st
    | some data =>
      match lookupField data "type".data with
      | some (Jval.jstr t) =>
        if t = "chunk".data then
          { st with fullContent := st.fullContent ++ jsToString (lookupField data "content".data) }
        else if t = "done".data then
          { st with messageData := some data }
        else if t = "error".data then
          -- `throw new Error(data.message)` is swallowed by the inner catch:
          -- the state is unchanged and the loop continues
          st
        else st
      | _ => st
  else st

/-- Whether a line would be dispatched as a `done` event (branch order as in
the source: `chunk` is tested first). -/
def isDoneLine (line : List Char) : Bool :=
  if "data: ".data.isPrefixOf line then
    match parseJson (line.drop 6) with
    | none => false
    | some data =>
      match lookupField data "type".data with
      | some (Jval.jstr t) =>
        if t = "chunk".data then false
        else if t = "done".data then true
        else false
      | _ => false
  else false

/-- The whole read loop over the delivered chunks (each chunk already
decoded to text; `TextDecoder` with `stream: true` makes the byte-to-text
step split-invariant, so chunks are modelled at text level). -/
def runStream (chunks : List (List Char)) : StreamState :=
  chunks.foldl (fun st chunk => (splitLines chunk).foldl processLine st) ⟨[], none⟩

/-- Whether any delivered line parses as a `done` event. -/
def hasDoneB (chunks : List (List Char)) : Bool :=
  chunks.any (fun ch => (splitLines ch).any isDoneLine)

/-! ## The transcript store and session state (`ChatInterface` fields) -/

inductive Role where
  | user
  | assistant
deriving DecidableEq

/-- A message object as pushed onto `this.messages`.  `message_id` is
`undefined` (`none`) when the `done` payload lacks the field. -/
structure MessageRecord where
  message_id : Option Jval
  role : Role
  content : List Char
  created_at : Jval

/-- The mutable fields of `ChatInterface` that the claims are about
(DOM handles and media objects are not part of the data model). -/
structure ChatState where
  messages : List MessageRecord
  oldestMessageId : Option Jval
  hasMoreMessages : Bool
  isLoadingMessages : Bool
  isSending : Bool
  isRecording : Bool
  isSpeaking : Bool
  voiceMode : Bool
  username : Option (List Char)

/-- The constructor's initial field values (chat.js lines 22-33). -/
def initState : ChatState :=
  { messages := []
    oldestMessageId := none
    hasMoreMessages := true
    isLoadingMessages := false
    isSending := false
    isRecording := false
    isSpeaking := false
    voiceMode := false
    username := none }

/-! ## Identity switching (`logout` lines 209-228, `setUsername` lines 159-204) -/

/-- `logout()` after the user confirms: clears the username and resets the
store and the pagination cursor.  Note it does **not** touch `voiceMode`. -/
def logout (s : ChatState) : ChatState :=
  { s with
    username := none
    messages := []
    hasMoreMessages := true
    oldestMessageId := none }

/-- JS `String.prototype.toLowerCase` (ASCII model, as usernames are
validated to ASCII right after): shift an upper-case letter down by 32. -/
def toLowerJs (c : Char) : Char :=
  if 65 ≤ c.toNat ∧ c.toNat ≤ 90 then Char.ofNat (c.toNat + 32) else c

/-- One character of the `^[a-z0-9_-]+$` username class, by code point. -/
def usernameChar (c : Char) : Bool :=
  (97 ≤ c.toNat && c.toNat ≤ 122) || (48 ≤ c.toNat && c.toNat ≤ 57) ||
    c == '_' || c == '-'

/-- The validation in `setUsername`: non-empty, matches `^[a-z0-9_-]+$`
after lowercasing, and at least 3 characters. -/
def usernameOk (u : List Char) : Bool :=
  !u.isEmpty && u.all usernameChar && decide (3 ≤ u.length)

/-- `setUsername` (chat.js lines 159-204): invalid input returns early with
nothing changed; on valid input the lowercased username is bound (and
persisted to localStorage) *before* the onboarding fetch.  The store clear,
the cursor reset and the `hasMoreMessages` reset sit inside the `try` after
`await fetch(...)` and run only when the fetch resolves (`fetchOk`); on
rejection the catch alerts and returns with the identity already switched
but the store untouched. -/
def setUsername (s : ChatState) (raw : List Char) (fetchOk : Bool) : ChatState :=
  let u := raw.map toLowerJs
  if !(usernameOk u) then s
  else
    let s1 := { s with username := some u }
    if fetchOk then
      { s1 with
        messages := []
        hasMoreMessages := true
        oldestMessageId := none }
    else s1

/-! ## `decodeMimeHeader` (chat.js lines 964-992)

`str.replace(/=\?([^?]+)\?([BQ])\?([^?]+)\?=/gi, cb)` with a callback that
Q-decodes (underscore to space, then `=XX` hex escapes) or B-decodes
(`atob`).  An exception thrown by `atob` escapes the replace and is caught
by the outer try, which returns the original string. -/

/-- One attempt of the encoded-word pattern at the head of the input:
`=?charset?E?text?=` with `charset` and `text` maximal non-empty runs of
non-`?` characters and `E` one of `B`, `Q`, `b`, `q` (the `i` flag).
Greedy `[^?]+` cannot backtrack across `?`, so matching is deterministic. -/
def mimeMatchAt : List Char → Option (List Char × Char × List Char × List Char)
  | '=' :: '?' :: t =>
    let cs := t.takeWhile (fun c => c != '?')
    match t.dropWhile (fun c => c != '?') with
    | '?' :: e :: '?' :: u =>
      if cs.isEmpty then none
      else if e == 'B' || e == 'Q' || e == 'b' || e == 'q' then
        let txt := u.takeWhile (fun c => c != '?')
        match u.dropWhile (fun c => c != '?') with
        | '?' :: '=' :: rest => if txt.isEmpty then none else some (cs, e, txt, rest)
        | _ => none
      else none
    | _ => none
  | _ => none

/-- `encodedText.replace(/=([0-9A-F]{2})/gi, hex)` — the second step of the
Q decoding; a lone `=` not followed by two hex digits is kept verbatim and
scanning resumes one character later. -/
def qHexF : Nat → List Char → List Char
  | 0, l => l
  | _, [] => []
  | fuel + 1, '=' :: rest =>
    match rest with
    | a :: b :: rest2 =>
      match hexDigit a, hexDigit b with
      | some x, some y => Char.ofNat (16 * x + y) :: qHexF fuel rest2
      | _, _ => '=' :: qHexF fuel (a :: b :: rest2)
    | _ => '=' :: qHexF fuel rest
  | fuel + 1, c :: rest => c :: qHexF fuel rest

/-- Quoted-printable decoding: underscores to spaces, then hex escapes. -/
def qDecode (l : List Char) : List Char :=
  let u := l.map (fun c => if c = '_' then ' ' else c)
  qHexF (u.length + 1) u

/-- Base64 alphabet value of a character, by code point: `A`-`Z` map to
0-25, `a`-`z` to 26-51, `0`-`9` to 52-61, then `+` and `/`. -/
def b64Val (c : Char) : Option Nat :=
  let n := c.toNat
  if 65 ≤ n ∧ n ≤ 90 then some (n - 65)
  else if 97 ≤ n ∧ n ≤ 122 then some (n - 71)
  else if 48 ≤ n ∧ n ≤ 57 then some (n + 4)
  else if n = 43 then some 62
  else if n = 47 then some 63
  else none

/-- Reassemble 6-bit groups into bytes (leftover bits of a final group of
two or three characters are discarded, as in forgiving-base64). -/
def sixToBytes : List Nat → List Nat
  | a :: b :: c :: d :: rest =>
    (a * 4 + b / 16) :: ((b % 16) * 16 + c / 4) :: ((c % 4) * 64 + d) :: sixToBytes rest
  | [a, b] => [a * 4 + b / 16]
  | [a, b, c] => [a * 4 + b / 16, (b % 16) * 16 + c / 4]
  | _ => []

/-- Strip at most two trailing padding characters. -/
def dropTrailEq (l : List Char) : List Char :=
  match l.reverse with
  | '=' :: '=' :: r => r.reverse
  | '=' :: r => r.reverse
  | _ => l

/-- `atob` (the forgiving-base64 decode): strip ASCII whitespace, strip up
to two `=` of padding when the length is a multiple of four, reject a
remainder of one and any character outside the alphabet; `none` models the
`InvalidCharacterError` throw. -/
def atobFn (l : List Char) : Option (List Char) :=
  let t := l.filter (fun c => !(c == ' ' || c == '\t' || c == '\n' || c == '\x0c' || c == '\r'))
  let t := if t.length % 4 == 0 then dropTrailEq t else t
  if t.length % 4 == 1 then none
  else
    match t.mapM b64Val with
    | none => none
    | some vals => some ((sixToBytes vals).map Char.ofNat)

/-- The global replace: scan left to right, substituting each match and
resuming after it, advancing one character after a failed attempt.
`none` propagates an `atob` throw out of the whole replace. -/
def mimeReplace : Nat → List Char → Option (List Char)
  | 0, l => some l
  | _, [] => some []
  | fuel + 1, c :: rest =>
    match mimeMatchAt (c :: rest) with
    | some (cs, e, txt, after) =>
      let decoded : Option (List Char) :=
        if e == 'Q' || e == 'q' then some (qDecode txt)
        else if e == 'B' || e == 'b' then atobFn txt
        else some ("=?".data ++ cs ++ '?' :: e :: '?' :: (txt ++ "?=".data))
      match decoded with
      | none => none
      | some d => (mimeReplace fuel after).map (fun r => d ++ r)
    | none => (mimeReplace fuel rest).map (fun r => c :: r)

/-- JS `String.prototype.includes`: some contiguous occurrence. -/
def containsSub (pat : List Char) : List Char → Bool
  | [] => pat.isEmpty
  | c :: rest => pat.isPrefixOf (c :: rest) || containsSub pat rest

/-- `decodeMimeHeader`: early return when the input is empty or has no
`=?`; otherwise run the replace, and if it throws (`none`) return the
original string — decoding never throws outward. -/
def decodeMimeHeader (s : String) : String :=
  if s.data.isEmpty || !(containsSub "=?".data s.data) then s
  else
    match mimeReplace (s.data.length + 1) s.data with
    | some r => String.mk r
    | none => s

/-! ## The voice pipeline (`processVoiceInput` lines 781-862, playback and
recording lines 706-776 and 867-958) -/

/-- Observable effects of `processVoiceInput`, in execution order. -/
inductive VoiceFx where
  | appendUser (content : List Char)
  | appendAssistant (content : List Char)
  | playAudio
deriving DecidableEq

/-- `processVoiceInput` on a successful `/api/voice/chat` round trip:
decode the two headers (`headers.get(..) || ''`), append the transcript as
a user message when non-empty, then the response text as an assistant
message when non-empty, then play the audio; finally `voiceMode = true`.
`now` stands for `Date.now()` / `new Date().toISOString()`. -/
def processVoiceInput (s : ChatState) (hTr hRt : Option String) (now : List Char) :
    ChatState × List VoiceFx :=
  let transcript := (decodeMimeHeader (hTr.getD "")).data
  let responseText := (decodeMimeHeader (hRt.getD "")).data
  let msgs1 :=
    if transcript ≠ [] then
      s.messages ++ [⟨some (Jval.jstr ("temp-".data ++ now)), Role.user, transcript, Jval.jstr now⟩]
    else s.messages
  let msgs2 :=
    if responseText ≠ [] then
      msgs1 ++ [⟨some (Jval.jstr ("temp-ai-".data ++ now)), Role.assistant, responseText, Jval.jstr now⟩]
    else msgs1
  let fx :=
    (if transcript ≠ [] then [VoiceFx.appendUser transcript] else []) ++
    (if responseText ≠ [] then [VoiceFx.appendAssistant responseText] else []) ++
    [VoiceFx.playAudio]
  ({ s with messages := msgs2, voiceMode := true }, fx)

/-- `stopSpeaking()`: pause and drop the current audio, clear the flag.
It does not touch `isRecording`. -/
def stopSpeaking (s : ChatState) : ChatState :=
  { s with isSpeaking := false }

/-- `startRecording()` success path: the recorder starts and the flag is
set.  It does not consult or clear `isSpeaking`. -/
def startRecording (s : ChatState) : ChatState :=
  { s with isRecording := true }

/-- `stopRecording()`: stop the recorder, clear the flag. -/
def stopRecording (s : ChatState) : ChatState :=
  { s with isRecording := false }

/-- `toggleVoiceInput()`: a click on the mic button — stop speech if
speaking, else toggle recording. -/
def toggleVoiceInput (s : ChatState) : ChatState :=
  if s.isSpeaking then stopSpeaking s
  else if s.isRecording then stopRecording s
  else startRecording s

/-- `playAudioResponse` up to its `onplay` callback: `stopSpeaking()` is
called first, then playback starts and `onplay` sets `isSpeaking`.
`isRecording` is never consulted. -/
def playAudioStart (s : ChatState) : ChatState :=
  { stopSpeaking s with isSpeaking := true }

/-- The `onended` (or `onerror`) callback of playback: clear the flag. -/
def playAudioEnd (s : ChatState) : ChatState :=
  { s with isSpeaking := false }

/-- The voice-pipeline events whose interleavings claim C9 ranges over. -/
inductive VEv where
  | tapMic
  | playStart
  | playEnd
  | stopSpeak
deriving DecidableEq

def vStep (s : ChatState) : VEv → ChatState
  | VEv.tapMic => toggleVoiceInput s
  | VEv.playStart => playAudioStart s
  | VEv.playEnd => playAudioEnd s
  | VEv.stopSpeak => stopSpeaking s

def vRun (s : ChatState) : List VEv → ChatState
  | [] => s
  | e :: es => vRun (vStep s e) es

/-- The guard of one event: playback must not start while recording. -/
def vGuard (s : ChatState) : VEv → Bool
  | VEv.playStart => !s.isRecording
  | _ => true

/-- A trace is guarded when playback never starts while recording is in
progress (the guard the code itself does not enforce). -/
def safeEvs (s : ChatState) : List VEv → Bool
  | [] => true
  | e :: es => vGuard s e && safeEvs (vStep s e) es

/-! ## `handleSubmit` (chat.js lines 458-583), success-fetch path

The transport succeeds and delivers `chunks`; the loop cannot raise (every
throw inside it is caught by the inner catch), so the outer catch — the
only site that calls `showError` and unconditionally removes the streaming
element — never runs on this path.  After the loop the assistant record is
appended only when a `done` payload was captured. -/

structure SubmitFx where
  assistantAppend : Option MessageRecord
  errorSurfaced : Bool
  draftRemoved : Bool
  spoke : Bool

def handleSubmit (s : ChatState) (input now : List Char) (chunks : List (List Char)) :
    ChatState × SubmitFx :=
  let content := trimJs input
  if content = [] ∨ s.isSending = true then (s, ⟨none, false, false, false⟩)
  else
    -- optimistic user message, pushed before the fetch
    let userMsg : MessageRecord :=
      ⟨some (Jval.jstr ("temp-".data ++ now)), Role.user, content, Jval.jstr now⟩
    let s1 := { s with messages := s.messages ++ [userMsg] }
    let st := runStream chunks
    match st.messageData with
    | some d =>
      let createdAt := lookupField d "created_at".data
      let finalMsg : MessageRecord :=
        ⟨lookupField d "message_id".data, Role.assistant, st.fullContent,
          if jsTruthy createdAt then createdAt.getD Jval.jnull else Jval.jstr now⟩
      ({ s1 with messages := s1.messages ++ [finalMsg] },
       ⟨some finalMsg, false, true, s.voiceMode⟩)
    | none =>
      -- no `done`: the guarded replacement block is skipped; nothing is
      -- appended, nothing is removed, no error is shown
      (s1, ⟨none, false, false, false⟩)

/-! ## Pagination (`loadMessages` lines 243-293, `handleScroll` lines 610-617)

`loadMessages` is async; its entry guard and its completion are modelled as
separate steps, with the in-flight `beforeId` carried by the machine. -/

/-- The entry guard and flag set of `loadMessages(beforeId)`; the returned
number is 1 when a network request is issued. -/
def loadMessagesStart (s : ChatState) (beforeId : Option Jval) : ChatState × Nat :=
  if s.isLoadingMessages = true ∨ (s.hasMoreMessages = false ∧ jsTruthy beforeId = true) then
    (s, 0)
  else ({ s with isLoadingMessages := true }, 1)

/-- The server page for one `GET /api/messages` call. -/
structure LoadResp where
  success : Bool
  messages : List MessageRecord
  has_more : Bool

/-- The rest of `loadMessages` once the fetch settles (`none` models a
thrown fetch/parse error, handled by the catch); the `finally` clears the
in-flight flag on every path. -/
def loadMessagesFinish (s : ChatState) (beforeId : Option Jval) (resp : Option LoadResp) :
    ChatState :=
  let s' :=
    match resp with
    | none => s
    | some r =>
      if r.success = true then
        let s1 := { s with hasMoreMessages := r.has_more }
        match r.messages with
        | [] => s1
        | m :: _ =>
          let s2 :=
            if jsTruthy beforeId then { s1 with messages := r.messages ++ s1.messages }
            else { s1 with messages := r.messages }
          { s2 with oldestMessageId := m.message_id }
      else s
  { s' with isLoadingMessages := false }

/-- `handleScroll()`: near the top, with more pages and no load in flight,
call `loadMessages(this.oldestMessageId)`. -/
def handleScroll (s : ChatState) (scrollTop : Nat) : ChatState × Nat :=
  if scrollTop < 200 ∧ s.hasMoreMessages = true ∧ s.isLoadingMessages = false then
    loadMessagesStart s s.oldestMessageId
  else (s, 0)

/-- The pagination machine: the chat state plus the `beforeId` of the load
in flight, if any. -/
structure PagState where
  cs : ChatState
  pending : Option (Option Jval)

inductive PagEv where
  | scroll (top : Nat)
  | finish (resp : Option LoadResp)

def pagStep (p : PagState) : PagEv → PagState × Nat
  | PagEv.scroll top =>
    let r := handleScroll p.cs top
    (⟨r.1, if r.2 = 1 then some p.cs.oldestMessageId else p.pending⟩, r.2)
  | PagEv.finish resp =>
    match p.pending with
    | none => (p, 0)
    | some bid => (⟨loadMessagesFinish p.cs bid resp, none⟩, 0)

/-- Run a sequence of scroll/completion events, counting issued requests. -/
def pagRun (p : PagState) : List PagEv → PagState × Nat
  | [] => (p, 0)
  | e :: es =>
    let r := pagStep p e
    let r' := pagRun r.1 es
    (r'.1, r.2 + r'.2)

/-! ## `formatMessage` (chat.js lines 396-414) and the HTML escape

`div.textContent = content; div.innerHTML` serialises the text node,
escaping `&`, `<`, `>` (and U+00A0); then newlines become `<br>`, lazy
`**bold**` becomes `<strong>...</strong>`, and a leading `- ` of a line
becomes a bullet. -/

def escChar (c : Char) : List Char :=
  if c = '&' then "&amp;".data
  else if c = Char.ofNat 160 then "&nbsp;".data
  else if c = '<' then "&lt;".data
  else if c = '>' then "&gt;".data
  else [c]

def escapeHtml : List Char → List Char
  | [] => []
  | c :: rest => escChar c ++ escapeHtml rest

/-- `formatted.replace(/\n/g, hmtlBr)` where the replacement is `<br>`. -/
def newlineSub : List Char → List Char
  | [] => []
  | c :: rest => (if c = '\n' then "<br>".data else [c]) ++ newlineSub rest

/-- The lazy middle of `/\*\*(.*?)\*\*/`: expand until the nearest `**`,
failing at a newline (`.` does not match `\n`) or the end of input. -/
def takeUntilStars : List Char → Option (List Char × List Char)
  | [] => none
  | c :: rest =>
    if c = '*' ∧ rest.head? = some '*' then some ([], rest.tail)
    else if c = '\n' then none
    else (takeUntilStars rest).map (fun p => (c :: p.1, p.2))

/-- `formatted.replace(/\*\*(.*?)\*\*/g, ...)`: at `**` find the lazy
closing `**`; on success substitute the tags and resume after the match,
on failure emit one character and rescan from the next position. -/
def boldSubF : Nat → List Char → List Char
  | 0, l => l
  | _, [] => []
  | fuel + 1, c :: rest =>
    if c = '*' ∧ rest.head? = some '*' then
      match takeUntilStars rest.tail with
      | some (mid, rest2) =>
        "<strong>".data ++ mid ++ "</strong>".data ++ boldSubF fuel rest2
      | none => c :: boldSubF fuel rest
    else c :: boldSubF fuel rest

def boldSub (l : List Char) : List Char := boldSubF (l.length + 1) l

/-- One line of `/^- (.+)$/gm`: a line that is `- ` plus at least one
character gets a bullet. -/
def lineSub (l : List Char) : List Char :=
  match l with
  | '-' :: ' ' :: c :: rest => '•' :: ' ' :: c :: rest
  | _ => l

def joinNl : List (List Char) → List Char
  | [] => []
  | [x] => x
  | x :: xs => x ++ '\n' :: joinNl xs

/-- `formatted.replace(/^- (.+)$/gm, ...)`: the multiline anchors make the
substitution act on each newline-delimited line independently. -/
def bulletSub (l : List Char) : List Char :=
  joinNl ((splitLines l).map lineSub)

/-- `formatMessage(content)`: empty content short-circuits to the empty
string; otherwise escape, then the three substitutions in source order. -/
def formatMessage (content : String) : String :=
  if content.isEmpty then ""
  else String.mk (bulletSub (boldSub (newlineSub (escapeHtml content.data))))

/-- Every occurrence of a `<` is immediately followed by one of the given
tag bodies — the shape claim C10 makes about `formatMessage` output. -/
def TagOk (tags : List (List Char)) : List Char → Prop
  | [] => True
  | c :: rest => (c = '<' → ∃ t, t ∈ tags ∧ ∃ r, rest = t ++ r) ∧ TagOk tags rest

/-- The tag bodies the fixed substitutions of `formatMessage` insert. -/
def c10Tags : List (List Char) := ["br>".data, "strong>".data, "/strong>".data]

/-! ## Concrete fixtures used by the counterexamples and witnesses -/

/-- A fixed timestamp standing for `new Date().toISOString()`. -/
def now0 : List Char := "2024-01-01T00:00:00.000Z".data

/-- An unsplit `chunk` event delivery. -/
def chunkWhole : List Char :=
  "data: \x7b\"type\":\"chunk\",\"content\":\"hi\"\x7d\n\n".data

/-- The same event split mid-line into two network chunks. -/
def chunkSplitA : List Char := "data: \x7b\"typ".data

def chunkSplitB : List Char := "e\":\"chunk\",\"content\":\"hi\"\x7d\n\n".data

/-- An `error` event delivery. -/
def errChunk : List Char :=
  "data: \x7b\"type\":\"error\",\"message\":\"boom\"\x7d\n\n".data

/-- A `chunk` event with no following `done`. -/
def partialChunk : List Char :=
  "data: \x7b\"type\":\"chunk\",\"content\":\"partial\"\x7d\n\n".data

/-- A `done` event delivery. -/
def doneChunk : List Char :=
  "data: \x7b\"type\":\"done\",\"message_id\":\"m1\",\"created_at\":\"2024-01-01\"\x7d\n\n".data

/-- A state with history loaded and pagination exhausted, as left by a few
page loads of a previous identity. -/
def statePrev : ChatState :=
  { initState with
    messages := [⟨some (Jval.jstr "m1".data), Role.user, "old".data, Jval.jstr "2023".data⟩]
    oldestMessageId := some (Jval.jstr "m1".data)
    hasMoreMessages := false
    username := some "bob".data }

/-! # Lemmas about the stream decode loop -/

/-- A line that is not dispatched as `done` leaves `messageData` unchanged
(`chunk` only grows `fullContent`; `error` is swallowed; bad JSON and
non-`data:` lines are skipped). -/
theorem processLine_messageData_of_not_done (st : StreamState) (line : List Char)
    (h : isDoneLine line = false) : (processLine st line).messageData = st.messageData := by
  by_cases hp : ("data: ".data.isPrefixOf line) = true
  · simp only [processLine, isDoneLine, hp, if_true] at h ⊢
    cases hj : parseJson (line.drop 6) with
    | none => simp [hj]
    | some data =>
      simp only [hj] at h ⊢
      cases hl : lookupField data "type".data with
      | none => simp [hl]
      | some v =>
        cases v with
        | jstr t =>
          simp only [hl] at h ⊢
          by_cases hc : t = "chunk".data
          · simp [hc]
          · by_cases hd : t = "done".data
            · simp [hc, hd] at h
            · by_cases he : t = "error".data <;> simp [hc, hd, he]
        | jnull => simp [hl]
        | jbool b => simp [hl]
        | jnum raw => simp [hl]
        | jarr vs => simp [hl]
        | jobj fs => simp [hl]
  · simp [processLine, hp]

/-- Folding the loop body over lines none of which is a `done` event
preserves `messageData`. -/
theorem foldLines_messageData (lines : List (List Char)) :
    ∀ st : StreamState, (∀ l ∈ lines, isDoneLine l = false) →
      (lines.foldl processLine st).messageData = st.messageData := by
  induction lines with
  | nil => intro st _; rfl
  | cons l ls ih =>
    intro st h
    simp only [List.foldl_cons]
    rw [ih (processLine st l) (fun x hx => h x (List.mem_cons_of_mem _ hx)),
      processLine_messageData_of_not_done st l (h l (List.mem_cons_self _ _))]

/-- A stream none of whose delivered lines parses as `done` ends with no
captured `done` payload. -/
theorem runStream_messageData_none :
    ∀ chunks : List (List Char), hasDoneB chunks = false →
      (runStream chunks).messageData = none := by
  have aux : ∀ (chunks : List (List Char)) (st : StreamState), hasDoneB chunks = false →
      st.messageData = none →
      ((chunks.foldl (fun st chunk => (splitLines chunk).foldl processLine st) st).messageData
        = none) := by
    intro chunks
    induction chunks with
    | nil => intro st _ hst; exact hst
    | cons ch rest ih =>
      intro st h hst
      have h2 : ((splitLines ch).any isDoneLine = false) ∧ hasDoneB rest = false := by
        simpa [hasDoneB, List.any_cons, Bool.or_eq_false_iff] using h
      have hall : ∀ l ∈ splitLines ch, isDoneLine l = false := by
        intro l hl
        by_contra hc
        have ht : isDoneLine l = true := by
          revert hc; cases isDoneLine l <;> simp
        have := List.any_eq_true.mpr ⟨l, hl, ht⟩
        rw [h2.1] at this
        exact Bool.false_ne_true this
      simp only [List.foldl_cons]
      exact ih _ h2.2 (by rw [foldLines_messageData _ st hall, hst])
  intro chunks h
  exact aux chunks ⟨[], none⟩ h rfl

/-! # Claim theorems -/

/-- C1: the claim says the decode buffers a partial line at a chunk
boundary and completes it with the next chunk, so any split delivery
accumulates the same text as the unsplit one.  The code splits each chunk
on newlines independently and silently skips the two halves of a split
line, so the split delivery of the same `chunk` event accumulates nothing
while the unsplit delivery accumulates `hi`. -/
theorem c1_chunk_split_loses_event :
    (runStream [chunkSplitA, chunkSplitB]).fullContent = [] ∧
    (runStream [chunkWhole]).fullContent = "hi".data := by
  constructor <;> rfl

/-- C2: the claim says an `error` event aborts the decode with a surfaced
failure and tears down the draft slot.  In the code the
`throw new Error(data.message)` is caught by the inner catch intended for
JSON parse errors, so an `error`-only stream surfaces nothing, removes
nothing, and appends nothing. -/
theorem c2_error_event_swallowed :
    (handleSubmit initState "hello".data now0 [errChunk]).2.errorSurfaced = false ∧
    (handleSubmit initState "hello".data now0 [errChunk]).2.draftRemoved = false ∧
    (handleSubmit initState "hello".data now0 [errChunk]).2.assistantAppend = none :=
  ⟨rfl, rfl, rfl⟩

/-- C3 counterexample: a stream that ends after a `chunk` event with no
`done` appends no assistant record but also surfaces no failure — the
claim's required visible failure does not happen. -/
theorem c3_stream_without_done_is_silent :
    (handleSubmit initState "hello".data now0 [partialChunk]).2.errorSurfaced = false ∧
    (handleSubmit initState "hello".data now0 [partialChunk]).2.assistantAppend = none ∧
    (handleSubmit initState "hello".data now0 [partialChunk]).2.draftRemoved = false :=
  ⟨rfl, rfl, rfl⟩

/-- C3 (amended): for every stream that reaches network completion without
a parsed `done` event, `handleSubmit` appends no assistant record — only
the optimistic user record is in the store — but surfaces no failure and
leaves the draft element in place: the submission ends silently. -/
theorem c3_no_done_appends_nothing_silently (s : ChatState) (input now : List Char)
    (chunks : List (List Char)) (hc : trimJs input ≠ []) (hs : s.isSending = false)
    (hd : hasDoneB chunks = false) :
    (handleSubmit s input now chunks).2.assistantAppend = none ∧
    (handleSubmit s input now chunks).2.errorSurfaced = false ∧
    (handleSubmit s input now chunks).2.draftRemoved = false ∧
    (handleSubmit s input now chunks).1.messages =
      s.messages ++
        [⟨some (Jval.jstr ("temp-".data ++ now)), Role.user, trimJs input, Jval.jstr now⟩] := by
  have hmd := runStream_messageData_none chunks hd
  simp [handleSubmit, hmd, hc, hs]

theorem c3_no_done_appends_nothing_silently_witness :
    trimJs "hello".data ≠ [] ∧ initState.isSending = false ∧
    hasDoneB [partialChunk] = false ∧
    (handleSubmit initState "hello".data now0 [partialChunk]).2.assistantAppend = none :=
  ⟨by decide, rfl, by decide,
    (c3_no_done_appends_nothing_silently initState "hello".data now0 [partialChunk]
      (by decide) rfl (by decide)).1⟩

/-- C4 counterexample: a valid `setUsername` whose onboarding fetch
rejects switches the identity — the username is bound before the fetch —
yet the previous identity's records, cursor and pagination flag all remain:
the claimed unconditional clear on identity switch fails on this path. -/
theorem c4_failed_onboard_keeps_old_records :
    (setUsername statePrev "Alice".data false).username = some "alice".data ∧
    (setUsername statePrev "Alice".data false).messages = statePrev.messages ∧
    statePrev.messages ≠ [] ∧
    (setUsername statePrev "Alice".data false).oldestMessageId
      = some (Jval.jstr "m1".data) ∧
    (setUsername statePrev "Alice".data false).hasMoreMessages = false :=
  ⟨rfl, rfl, fun h => List.noConfusion h, rfl, rfl⟩

/-- C4 (amended): `logout` clears the store, the oldest-id cursor and the
`hasMoreMessages` flag for every prior state, and a valid `setUsername`
does the same when its onboarding fetch succeeds; when the fetch rejects,
the username is nevertheless already switched while the previous
identity's records, cursor and pagination flag are all left as they were. -/
theorem c4_identity_switch_clears :
    (∀ s : ChatState,
        (logout s).messages = [] ∧ (logout s).oldestMessageId = none ∧
        (logout s).hasMoreMessages = true) ∧
    (∀ (s : ChatState) (raw : List Char), usernameOk (raw.map toLowerJs) = true →
        (setUsername s raw true).messages = [] ∧
        (setUsername s raw true).oldestMessageId = none ∧
        (setUsername s raw true).hasMoreMessages = true) ∧
    (∀ (s : ChatState) (raw : List Char), usernameOk (raw.map toLowerJs) = true →
        (setUsername s raw false).username = some (raw.map toLowerJs) ∧
        (setUsername s raw false).messages = s.messages ∧
        (setUsername s raw false).oldestMessageId = s.oldestMessageId ∧
        (setUsername s raw false).hasMoreMessages = s.hasMoreMessages) := by
  refine ⟨fun s => ⟨rfl, rfl, rfl⟩, ?_, ?_⟩
  · intro s raw h; simp [setUsername, h]
  · intro s raw h; simp [setUsername, h]

theorem c4_identity_switch_clears_witness :
    usernameOk ("Alice".data.map toLowerJs) = true ∧
    (setUsername statePrev "Alice".data true).messages = [] ∧
    (setUsername statePrev "Alice".data true).oldestMessageId = none ∧
    (setUsername statePrev "Alice".data true).hasMoreMessages = true ∧
    (setUsername statePrev "Alice".data false).messages = statePrev.messages :=
  ⟨by decide,
    (c4_identity_switch_clears.2.1 statePrev "Alice".data (by decide)).1,
    (c4_identity_switch_clears.2.1 statePrev "Alice".data (by decide)).2.1,
    (c4_identity_switch_clears.2.1 statePrev "Alice".data (by decide)).2.2,
    (c4_identity_switch_clears.2.2 statePrev "Alice".data (by decide)).2.1⟩

/-- C5: on a voice round trip with non-empty decoded transcript and
non-empty decoded response text, exactly a user record then an assistant
record are appended, and the audio-playback effect comes only after both
appends (it is always the last effect); an empty slot appends nothing. -/
theorem c5_voice_append_order (s : ChatState) (hTr hRt : Option String) (now : List Char) :
    ((decodeMimeHeader (hTr.getD "")).data ≠ [] →
      (decodeMimeHeader (hRt.getD "")).data ≠ [] →
      (processVoiceInput s hTr hRt now).2 =
        [VoiceFx.appendUser (decodeMimeHeader (hTr.getD "")).data,
          VoiceFx.appendAssistant (decodeMimeHeader (hRt.getD "")).data,
          VoiceFx.playAudio] ∧
      (processVoiceInput s hTr hRt now).1.messages =
        s.messages ++
          [⟨some (Jval.jstr ("temp-".data ++ now)), Role.user,
              (decodeMimeHeader (hTr.getD "")).data, Jval.jstr now⟩,
            ⟨some (Jval.jstr ("temp-ai-".data ++ now)), Role.assistant,
              (decodeMimeHeader (hRt.getD "")).data, Jval.jstr now⟩]) ∧
    ((decodeMimeHeader (hTr.getD "")).data = [] →
      ∀ c, VoiceFx.appendUser c ∉ (processVoiceInput s hTr hRt now).2) ∧
    ((decodeMimeHeader (hRt.getD "")).data = [] →
      ∀ c, VoiceFx.appendAssistant c ∉ (processVoiceInput s hTr hRt now).2) ∧
    (processVoiceInput s hTr hRt now).2.getLast? = some VoiceFx.playAudio := by
  by_cases h1 : (decodeMimeHeader (hTr.getD "")).data = [] <;>
    by_cases h2 : (decodeMimeHeader (hRt.getD "")).data = [] <;>
    simp [processVoiceInput, h1, h2]

theorem c5_voice_append_order_witness :
    (decodeMimeHeader "I have a headache").data ≠ [] ∧
    (decodeMimeHeader "Try resting").data ≠ [] ∧
    (processVoiceInput initState (some "I have a headache") (some "Try resting") now0).2 =
      [VoiceFx.appendUser (decodeMimeHeader "I have a headache").data,
        VoiceFx.appendAssistant (decodeMimeHeader "Try resting").data,
        VoiceFx.playAudio] :=
  ⟨by decide, by decide,
    ((c5_voice_append_order initState (some "I have a headache") (some "Try resting") now0).1
      (by decide) (by decide)).1⟩

/-- C6: `decodeMimeHeader` decodes a Q-encoded word (underscore to space,
`=XX` hex escapes), leaves plain and malformed text verbatim, and on any
decoding failure (a `none` from the replace, i.e. an `atob` throw) returns
the original string unchanged — it never throws outward. -/
theorem c6_decodeMimeHeader_spec :
    decodeMimeHeader "=?UTF-8?Q?Hello_World?=" = "Hello World" ∧
    decodeMimeHeader "plain text" = "plain text" ∧
    decodeMimeHeader "=?X?=" = "=?X?=" ∧
    ∀ s : String, mimeReplace (s.data.length + 1) s.data = none → decodeMimeHeader s = s := by
  refine ⟨by decide, by decide, by decide, ?_⟩
  intro s h
  unfold decodeMimeHeader
  split
  · rfl
  · rw [h]

theorem c6_decodeMimeHeader_spec_witness :
    mimeReplace ("=?UTF-8?B?!!!?=".data.length + 1) "=?UTF-8?B?!!!?=".data = none ∧
    decodeMimeHeader "=?UTF-8?B?!!!?=" = "=?UTF-8?B?!!!?=" :=
  ⟨by decide, c6_decodeMimeHeader_spec.2.2.2 "=?UTF-8?B?!!!?=" (by decide)⟩

/-- C7 counterexample: after a successful voice round trip sets
`voiceMode`, `logout` — the claimed deactivation path — leaves `voiceMode`
set: identity switch does not deactivate voice mode. -/
theorem c7_logout_keeps_voice_mode :
    (logout ((processVoiceInput statePrev (some "hi") (some "yo") now0).1)).voiceMode = true :=
  rfl

/-- C7 (amended): a successful voice round trip sets `voiceMode`, and while
it is set every finalized text-originated reply is also spoken; but no
identity switch clears it — `logout` leaves `voiceMode` exactly as it was,
so voice mode persists until the page session ends. -/
theorem c7_voice_mode_persists :
    (∀ (s : ChatState) (hTr hRt : Option String) (now : List Char),
        (processVoiceInput s hTr hRt now).1.voiceMode = true) ∧
    (∀ (s : ChatState) (input now : List Char) (chunks : List (List Char)),
        s.voiceMode = true → trimJs input ≠ [] → s.isSending = false →
        (runStream chunks).messageData.isSome = true →
        (handleSubmit s input now chunks).2.spoke = true) ∧
    (∀ s : ChatState, (logout s).voiceMode = s.voiceMode) := by
  refine ⟨fun s hTr hRt now => rfl, ?_, fun s => rfl⟩
  intro s input now chunks hv hc hs hmd
  cases hmde : (runStream chunks).messageData with
  | none => rw [hmde] at hmd; simp at hmd
  | some d => simp [handleSubmit, hmde, hc, hs, hv]

theorem c7_voice_mode_persists_witness :
    trimJs "hello".data ≠ [] ∧
    (runStream [doneChunk]).messageData.isSome = true ∧
    (handleSubmit { initState with voiceMode := true } "hello".data now0 [doneChunk]).2.spoke
      = true :=
  ⟨by decide, rfl,
    c7_voice_mode_persists.2.1 { initState with voiceMode := true } "hello".data now0
      [doneChunk] rfl (by decide) rfl rfl⟩

/-- C8: once a pagination state has `hasMoreMessages = false` with no load
in flight, any sequence of scroll and completion events issues zero
further requests (until an identity switch, which is not among these
events); and while a load is in flight both the scroll handler and
`loadMessages` itself suppress a new request. -/
theorem c8_pagination_guard :
    (∀ (p : PagState) (evs : List PagEv),
        p.cs.hasMoreMessages = false → p.cs.isLoadingMessages = false → p.pending = none →
        (pagRun p evs).2 = 0) ∧
    (∀ (s : ChatState) (top : Nat), s.isLoadingMessages = true →
        handleScroll s top = (s, 0)) ∧
    (∀ (s : ChatState) (bid : Option Jval), s.isLoadingMessages = true →
        loadMessagesStart s bid = (s, 0)) := by
  refine ⟨?_, ?_, ?_⟩
  · intro p evs
    induction evs generalizing p with
    | nil => intro _ _ _; rfl
    | cons e es ih =>
      intro hm hl hp
      cases e with
      | scroll top =>
        have hstep : handleScroll p.cs top = (p.cs, 0) := by
          simp [handleScroll, hm]
        simp only [pagRun, pagStep, hstep]
        simpa using ih p hm hl hp
      | finish resp =>
        simp only [pagRun, pagStep, hp]
        simpa using ih p hm hl hp
  · intro s top h; simp [handleScroll, h]
  · intro s bid h; simp [loadMessagesStart, h]

theorem c8_pagination_guard_witness :
    ({ initState with hasMoreMessages := false } : ChatState).hasMoreMessages = false ∧
    (pagRun ⟨{ initState with hasMoreMessages := false }, none⟩
        [PagEv.scroll 0, PagEv.scroll 100, PagEv.finish none, PagEv.scroll 50]).2 = 0 :=
  ⟨rfl, c8_pagination_guard.1 ⟨{ initState with hasMoreMessages := false }, none⟩
      [PagEv.scroll 0, PagEv.scroll 100, PagEv.finish none, PagEv.scroll 50] rfl rfl rfl⟩

/-- C9 counterexample: start recording via the mic button, then let a
pending playback begin (`speakText` resolving): `onplay` sets `isSpeaking`
without consulting `isRecording`, and both flags are true — the claimed
mutual exclusion is violated by a reachable interleaving of the listed
operations. -/
theorem c9_playback_during_recording :
    (vRun initState [VEv.tapMic, VEv.playStart]).isRecording = true ∧
    (vRun initState [VEv.tapMic, VEv.playStart]).isSpeaking = true :=
  ⟨rfl, rfl⟩

/-- C9 (amended): the pipeline enforces only one direction of the
exclusion — `toggleVoiceInput` stops speech instead of starting a capture
while `isSpeaking` — so along any interleaving in which playback never
starts during an active recording the two flags are never both true; a
playback start while recording breaks it. -/
theorem c9_mutex_guarded :
    (∀ (s : ChatState) (evs : List VEv),
        (s.isRecording && s.isSpeaking) = false → safeEvs s evs = true →
        ((vRun s evs).isRecording && (vRun s evs).isSpeaking) = false) ∧
    (∀ s : ChatState, s.isSpeaking = true → toggleVoiceInput s = stopSpeaking s) := by
  constructor
  · intro s evs
    induction evs generalizing s with
    | nil => intro h _; exact h
    | cons e es ih =>
      intro h hs
      rw [safeEvs] at hs
      cases e with
      | tapMic =>
        simp only [vGuard, Bool.true_and] at hs
        cases hsp : s.isSpeaking with
        | true =>
          refine ih _ ?_ hs
          simp [vStep, toggleVoiceInput, hsp, stopSpeaking]
        | false =>
          cases hrec : s.isRecording with
          | true =>
            refine ih _ ?_ hs
            simp [vStep, toggleVoiceInput, hsp, hrec, stopRecording]
          | false =>
            refine ih _ ?_ hs
            simp [vStep, toggleVoiceInput, hsp, hrec, startRecording]
      | playStart =>
        simp only [vGuard, Bool.and_eq_true, Bool.not_eq_true'] at hs
        refine ih _ ?_ hs.2
        simp [vStep, playAudioStart, stopSpeaking, hs.1]
      | playEnd =>
        simp only [vGuard, Bool.true_and] at hs
        refine ih _ ?_ hs
        simp [vStep, playAudioEnd]
      | stopSpeak =>
        simp only [vGuard, Bool.true_and] at hs
        refine ih _ ?_ hs
        simp [vStep, stopSpeaking]
  · intro s h; simp [toggleVoiceInput, h]

/-! # Lemmas for claim C10: every `<` in `formatMessage` output opens one
of the three fixed tags -/

theorem tagOk_nil (T : List (List Char)) : TagOk T [] := trivial

theorem tagOk_cons_of_ne {T : List (List Char)} {c : Char} {l : List Char}
    (hc : c ≠ '<') (h : TagOk T l) : TagOk T (c :: l) :=
  ⟨fun h' => absurd h' hc, h⟩

theorem tagOk_tail {T : List (List Char)} {c : Char} {l : List Char}
    (h : TagOk T (c :: l)) : TagOk T l := h.2

theorem tagOk_of_no_lt {T : List (List Char)} : ∀ {l : List Char}, '<' ∉ l → TagOk T l := by
  intro l
  induction l with
  | nil => intro _; trivial
  | cons c rest ih =>
    intro h
    constructor
    · intro hc; subst hc; exact absurd (List.mem_cons_self _ _) h
    · exact ih (fun hm => h (List.mem_cons_of_mem _ hm))

theorem tagOk_append {T : List (List Char)} :
    ∀ {a b : List Char}, TagOk T a → TagOk T b → TagOk T (a ++ b) := by
  intro a
  induction a with
  | nil => intro b _ hb; simpa using hb
  | cons c a' ih =>
    intro b ha hb
    obtain ⟨h1, h2⟩ := ha
    refine ⟨fun hc => ?_, ih h2 hb⟩
    obtain ⟨t, ht, r, hr⟩ := h1 hc
    exact ⟨t, ht, r ++ b, by rw [hr]; exact List.append_assoc t r b⟩

theorem tagOk_drop {T : List (List Char)} :
    ∀ {a b : List Char}, TagOk T (a ++ b) → TagOk T b := by
  intro a
  induction a with
  | nil => intro b h; simpa using h
  | cons c a' ih => intro b h; exact ih (tagOk_tail h)

/-- A `<` inside the part before a `**` has its whole tag before the `**`,
because no tag contains a star. -/
theorem tagOk_split_stars {T : List (List Char)} (hstar : ∀ t ∈ T, '*' ∉ t) :
    ∀ {a b : List Char}, TagOk T (a ++ '*' :: '*' :: b) → TagOk T a := by
  intro a
  induction a with
  | nil => intro b _; trivial
  | cons c a' ih =>
    intro b h
    obtain ⟨h1, h2⟩ := h
    refine ⟨fun hc => ?_, ih h2⟩
    obtain ⟨t, ht, r, hr⟩ := h1 hc
    rcases List.append_eq_append_iff.mp hr with ⟨u, hu1, hu2⟩ | ⟨u, hu1, hu2⟩
    · cases u with
      | nil =>
        refine ⟨t, ht, [], ?_⟩
        simp only [List.append_nil] at hu1 ⊢
        exact hu1.symm
      | cons u0 u' =>
        have hu0 : u0 = '*' := by
          have := congrArg List.head? hu2
          simpa using this.symm
        exfalso
        refine hstar t ht ?_
        rw [hu1, hu0]
        exact List.mem_append_right _ (List.mem_cons_self _ _)
    · exact ⟨t, ht, u, hu1⟩

theorem escChar_no_angle (c : Char) : '<' ∉ escChar c ∧ '>' ∉ escChar c := by
  unfold escChar
  split
  · constructor <;> decide
  · split
    · constructor <;> decide
    · split
      · constructor <;> decide
      · split
        · constructor <;> decide
        · rename_i h1 h2 h3 h4
          simp only [List.mem_singleton]
          exact ⟨fun h => h3 h.symm, fun h => h4 h.symm⟩

theorem escapeHtml_no_angle : ∀ l : List Char, '<' ∉ escapeHtml l ∧ '>' ∉ escapeHtml l := by
  intro l
  induction l with
  | nil => simp [escapeHtml]
  | cons c rest ih =>
    simp only [escapeHtml, List.mem_append]
    constructor
    · rintro (h | h)
      · exact (escChar_no_angle c).1 h
      · exact ih.1 h
    · rintro (h | h)
      · exact (escChar_no_angle c).2 h
      · exact ih.2 h

theorem newlineSub_no_nl : ∀ l : List Char, '\n' ∉ newlineSub l := by
  intro l
  induction l with
  | nil => simp [newlineSub]
  | cons c rest ih =>
    simp only [newlineSub, List.mem_append]
    rintro (h | h)
    · by_cases hc : c = '\n'
      · rw [if_pos hc] at h; revert h; decide
      · rw [if_neg hc] at h
        simp only [List.mem_singleton] at h
        exact hc h.symm
    · exact ih h

theorem newlineSub_tagOk {T : List (List Char)} (hbr : "br>".data ∈ T) :
    ∀ l : List Char, '<' ∉ l → TagOk T (newlineSub l) := by
  intro l
  induction l with
  | nil => intro _; trivial
  | cons c rest ih =>
    intro h
    have hrest := ih (fun hm => h (List.mem_cons_of_mem _ hm))
    by_cases hc : c = '\n'
    · rw [newlineSub, if_pos hc]
      refine tagOk_append ?_ hrest
      exact ⟨fun _ => ⟨"br>".data, hbr, [], by simp⟩, tagOk_of_no_lt (by decide)⟩
    · rw [newlineSub, if_neg hc]
      refine tagOk_cons_of_ne ?_ hrest
      intro he
      exact h (by rw [he]; exact List.mem_cons_self _ _)

/-- Specification of the lazy middle: on success the input splits as the
middle, the closing stars and the remainder. -/
theorem takeUntilStars_eq :
    ∀ (l mid rest2 : List Char), takeUntilStars l = some (mid, rest2) →
      l = mid ++ '*' :: '*' :: rest2 := by
  intro l
  induction l with
  | nil => intro mid rest2 h; simp [takeUntilStars] at h
  | cons c rest ih =>
    intro mid rest2 h
    rw [takeUntilStars] at h
    by_cases hs : c = '*' ∧ rest.head? = some '*'
    · rw [if_pos hs] at h
      have hinj := Option.some.inj h
      have hmid : ([] : List Char) = mid := congrArg Prod.fst hinj
      have hrest : rest.tail = rest2 := congrArg Prod.snd hinj
      obtain ⟨hc, hh⟩ := hs
      subst hc
      cases rest with
      | nil => simp at hh
      | cons c2 rest' =>
        have hc2 : c2 = '*' := by simpa using hh
        subst hc2
        rw [← hmid, ← hrest]
        rfl
    · rw [if_neg hs] at h
      by_cases hn : c = '\n'
      · rw [if_pos hn] at h; exact absurd h (by simp)
      · rw [if_neg hn] at h
        rw [Option.map_eq_some'] at h
        obtain ⟨p, hp, hpe⟩ := h
        have := ih p.1 p.2 hp
        rw [this]
        have h1 : c :: p.1 = mid := congrArg Prod.fst hpe
        have h2 : p.2 = rest2 := congrArg Prod.snd hpe
        rw [← h1, ← h2]
        rfl

theorem takeUntilStars_no_nl {l mid rest2 : List Char} (hl : '\n' ∉ l)
    (h : takeUntilStars l = some (mid, rest2)) : '\n' ∉ mid ∧ '\n' ∉ rest2 := by
  have := takeUntilStars_eq l mid rest2 h
  subst this
  constructor
  · exact fun hm => hl (List.mem_append_left _ hm)
  · exact fun hm => hl (List.mem_append_right _ (List.mem_cons_of_mem _ (List.mem_cons_of_mem _ hm)))

/-- The bold substitution copies any star-free block verbatim: the block is
never the start of a `**` match, whatever the fuel. -/
theorem boldSubF_copies_no_star :
    ∀ (fuel : Nat) (t r : List Char), (∀ ch ∈ t, ch ≠ '*') →
      ∃ r', boldSubF fuel (t ++ r) = t ++ r' := by
  intro fuel
  induction fuel with
  | zero => intro t r _; exact ⟨r, by rw [boldSubF]⟩
  | succ fuel ih =>
    intro t r hns
    cases t with
    | nil => exact ⟨boldSubF (fuel + 1) r, rfl⟩
    | cons c t' =>
      have hc : c ≠ '*' := hns c (List.mem_cons_self _ _)
      have hs : ¬(c = '*' ∧ (t' ++ r).head? = some '*') := fun h => hc h.1
      obtain ⟨r', hr'⟩ := ih t' r (fun ch hch => hns ch (List.mem_cons_of_mem _ hch))
      refine ⟨r', ?_⟩
      rw [List.cons_append, boldSubF, if_neg hs, hr']
      rfl

theorem boldSubF_tagOk {T : List (List Char)} (hso : "strong>".data ∈ T)
    (hsc : "/strong>".data ∈ T) (hstar : ∀ t ∈ T, '*' ∉ t) :
    ∀ (fuel : Nat) (l : List Char), TagOk T l → TagOk T (boldSubF fuel l) := by
  intro fuel
  induction fuel with
  | zero => intro l h; rw [boldSubF]; exact h
  | succ fuel ih =>
    intro l h
    cases l with
    | nil => exact tagOk_nil T
    | cons c rest =>
      rw [boldSubF]
      by_cases hs : c = '*' ∧ rest.head? = some '*'
      · rw [if_pos hs]
        cases hts : takeUntilStars rest.tail with
        | none =>
          refine tagOk_cons_of_ne ?_ (ih _ (tagOk_tail h))
          rw [hs.1]; decide
        | some p =>
          obtain ⟨mid, rest2⟩ := p
          cases rest with
          | nil => simp at hs
          | cons c2 rest' =>
            have hc2 : c2 = '*' := by simpa using hs.2
            subst hc2
            have hdec := takeUntilStars_eq rest' mid rest2 hts
            have hrest : TagOk T (mid ++ '*' :: '*' :: rest2) := by
              rw [← hdec]; exact tagOk_tail (tagOk_tail h)
            have hmid : TagOk T mid := tagOk_split_stars hstar hrest
            have hrest2 : TagOk T rest2 :=
              tagOk_tail (tagOk_tail (tagOk_drop (a := mid) hrest))
            have hA : TagOk T "<strong>".data :=
              ⟨fun _ => ⟨"strong>".data, hso, [], by simp⟩, tagOk_of_no_lt (by decide)⟩
            have hB : TagOk T "</strong>".data :=
              ⟨fun _ => ⟨"/strong>".data, hsc, [], by simp⟩, tagOk_of_no_lt (by decide)⟩
            exact tagOk_append (tagOk_append (tagOk_append hA hmid) hB) (ih _ hrest2)
      · rw [if_neg hs]
        obtain ⟨h1, h2⟩ := h
        refine ⟨fun hc => ?_, ih _ h2⟩
        obtain ⟨t, ht, r, hr⟩ := h1 hc
        have hns : ∀ ch ∈ t, ch ≠ '*' := fun ch hch he => hstar t ht (he ▸ hch)
        obtain ⟨r', hr'⟩ := boldSubF_copies_no_star fuel t r hns
        exact ⟨t, ht, r', by rw [hr]; exact hr'⟩

theorem boldSubF_no_nl :
    ∀ (fuel : Nat) (l : List Char), '\n' ∉ l → '\n' ∉ boldSubF fuel l := by
  intro fuel
  induction fuel with
  | zero => intro l h; rw [boldSubF]; exact h
  | succ fuel ih =>
    intro l h
    cases l with
    | nil => simp [boldSubF]
    | cons c rest =>
      have hrest : '\n' ∉ rest := fun hm => h (List.mem_cons_of_mem _ hm)
      have hc : c ≠ '\n' := fun he => h (by rw [he]; exact List.mem_cons_self _ _)
      rw [boldSubF]
      by_cases hs : c = '*' ∧ rest.head? = some '*'
      · rw [if_pos hs]
        cases hts : takeUntilStars rest.tail with
        | none =>
          intro hm
          rcases List.mem_cons.mp hm with he | hm'
          · exact hc he.symm
          · exact ih rest hrest hm'
        | some p =>
          obtain ⟨mid, rest2⟩ := p
          cases rest with
          | nil => simp at hs
          | cons c2 rest' =>
            have hrest' : '\n' ∉ rest' := fun hm => hrest (List.mem_cons_of_mem _ hm)
            have hnn := takeUntilStars_no_nl hrest' hts
            intro hm
            simp only [List.mem_append] at hm
            rcases hm with ((hm | hm) | hm) | hm
            · revert hm; decide
            · exact hnn.1 hm
            · revert hm; decide
            · exact ih rest2 hnn.2 hm
      · rw [if_neg hs]
        intro hm
        rcases List.mem_cons.mp hm with he | hm'
        · exact hc he.symm
        · exact ih rest hrest hm'

theorem splitLines_eq_single : ∀ l : List Char, '\n' ∉ l → splitLines l = [l] := by
  intro l
  induction l with
  | nil => intro _; rfl
  | cons c rest ih =>
    intro h
    have hc : c ≠ '\n' := fun he => h (by rw [he]; exact List.mem_cons_self _ _)
    rw [splitLines, if_neg hc, ih (fun hm => h (List.mem_cons_of_mem _ hm))]

theorem bulletSub_of_no_nl {l : List Char} (h : '\n' ∉ l) : bulletSub l = lineSub l := by
  rw [bulletSub, splitLines_eq_single l h]
  rfl

theorem lineSub_tagOk {T : List (List Char)} {l : List Char} (h : TagOk T l) :
    TagOk T (lineSub l) := by
  unfold lineSub
  split
  · rename_i c rest
    exact tagOk_cons_of_ne (by decide)
      (tagOk_cons_of_ne (by decide) (tagOk_tail (tagOk_tail h)))
  · exact h

/-- C10: `formatMessage` escapes the content first — the escaped text has
no `<` or `>` left — and every `<` of the final output opens one of the
fixed substitution tags `<br>`, `<strong>`, `</strong>`; the stored content
is an input only (the function is pure and returns fresh markup). -/
theorem c10_formatMessage_escapes (content : String) :
    '<' ∉ escapeHtml content.data ∧ '>' ∉ escapeHtml content.data ∧
    TagOk c10Tags (formatMessage content).data := by
  refine ⟨(escapeHtml_no_angle content.data).1, (escapeHtml_no_angle content.data).2, ?_⟩
  unfold formatMessage
  split
  · exact tagOk_nil _
  · have h0 := escapeHtml_no_angle content.data
    have h1 : TagOk c10Tags (newlineSub (escapeHtml content.data)) :=
      newlineSub_tagOk (by decide) _ h0.1
    have hn1 : '\n' ∉ newlineSub (escapeHtml content.data) := newlineSub_no_nl _
    have h2 : TagOk c10Tags (boldSub (newlineSub (escapeHtml content.data))) :=
      boldSubF_tagOk (by decide) (by decide) (by decide) _ _ h1
    have hn2 : '\n' ∉ boldSub (newlineSub (escapeHtml content.data)) :=
      boldSubF_no_nl _ _ hn1
    show TagOk c10Tags (bulletSub (boldSub (newlineSub (escapeHtml content.data))))
    rw [bulletSub_of_no_nl hn2]
    exact lineSub_tagOk h2

theorem c9_mutex_guarded_witness :
    (initState.isRecording && initState.isSpeaking) = false ∧
    safeEvs initState [VEv.tapMic, VEv.tapMic, VEv.playStart, VEv.playEnd] = true ∧
    ((vRun initState [VEv.tapMic, VEv.tapMic, VEv.playStart, VEv.playEnd]).isRecording &&
      (vRun initState [VEv.tapMic, VEv.tapMic, VEv.playStart, VEv.playEnd]).isSpeaking)
      = false :=
  ⟨rfl, rfl,
    c9_mutex_guarded.1 initState [VEv.tapMic, VEv.tapMic, VEv.playStart, VEv.playEnd]
      rfl rfl⟩

end Chat
